import Mathlib

/-!
# slowrm: a shallow embedding of `slowrm.c`

`slowrm` walks the given paths with `fts(3)`, unlinks what it finds, truncates
large files chunk by chunk before dropping the descriptor, and sleeps between
bursts.  This file embeds `dream`, `unlink_entry` and `main` of `slowrm.c` as
pure functions over an explicit environment and proves properties of them.

Conventions of the embedding:

* The environment is the sequence of entries that `fts_read` would deliver
  (in order, absent any `FTS_SKIP` instruction), each paired with the outcomes
  of the system calls the program may issue on it.
* Every system call the program issues is recorded as an `Event`, in program
  order.
* `st_size` (`off_t`) of a file and `chunk` (`guint64`) are natural numbers: a
  file size is never negative, so the unsigned comparisons of the source and
  `boundary -= chunk` under the guard `boundary >= chunk` do not wrap.
* `the_counter` is a 32-bit `int`: `the_counter += st_size` wraps to 32 bits
  and `the_counter > chunk` converts the counter to 64-bit unsigned.
* The truncation loop may run forever, so it takes a fuel bound on the number
  of iterations; running out of fuel is reported as `Status.looping`.
-/

namespace Slowrm

/-! ## Data model -/

/-- Values of `fts_info` (`fts.h`). -/
inductive FtsInfo
  | FTS_D
  | FTS_DC
  | FTS_DEFAULT
  | FTS_DNR
  | FTS_DOT
  | FTS_DP
  | FTS_ERR
  | FTS_F
  | FTS_NS
  | FTS_NSOK
  | FTS_SL
  | FTS_SLNONE
  deriving DecidableEq

/-- The fields of `struct stat` the program reads, and the device id. -/
structure Stat where
  st_size : Nat
  st_nlink : Nat
  st_dev : Nat
  deriving DecidableEq

/-- The fields of `FTSENT` the program reads, and `fts_level` (0 for a root
argument). `fts_path` stands for both `fts_path` and `fts_accpath`. -/
structure FTSENT where
  fts_info : FtsInfo
  fts_path : String
  fts_level : Nat
  fts_statp : Stat
  deriving DecidableEq

/-- Outcomes of the system calls on one entry: `open`, `unlink`, `rmdir`
succeed or fail; `ftruncateOk k` is the outcome of the `k`-th `ftruncate`
(counted from 0) on the entry's descriptor. -/
structure Sys where
  openOk : Bool
  unlinkOk : Bool
  rmdirOk : Bool
  ftruncateOk : Nat → Bool

/-- What the program does to the outside world, in program order. A failed
call (`ok = false`) is always followed by its `g_printerr` line, which is not
recorded separately. -/
inductive Event
  | fts_read (e : FTSENT)
  | usleep
  | nonRecursiveDir (e : FTSENT)
  | fts_skip (e : FTSENT)
  | rmdir (e : FTSENT) (ok : Bool)
  | openRW (e : FTSENT) (ok : Bool)
  | unlink (e : FTSENT) (ok : Bool)
  | ftruncate (e : FTSENT) (length : Nat) (ok : Bool)
  | close (e : FTSENT)
  deriving DecidableEq

/-- Where control is after a piece of code ran: `running` (falls through to
the next statement or the next `fts_read`), `exited code` (the process
ended), `looping` (the truncation loop used up its fuel). -/
inductive Status
  | running
  | exited (code : Nat)
  | looping
  deriving DecidableEq

/-- Result of running a piece of the program: the status, the value of
`the_counter`, the number of descriptors opened and not closed, whether
`fts_set(fts, e, FTS_SKIP)` was called, and the events issued. -/
structure Out where
  status : Status
  the_counter : Int
  fds : Nat
  skip : Bool
  events : List Event
  deriving DecidableEq

/-- The global option variables of `slowrm.c` after option parsing. `chunk` is
in megabytes. `sleep_time` only sets the length of a pause and is left out. -/
structure Config where
  recursive : Bool
  chunk : Nat
  force : Bool
  onefs : Bool
  paths : List String
  deriving DecidableEq

/-! ## Machine arithmetic -/

/-- Conversion of a value to `int` (32-bit two's complement). -/
def toInt32 (x : Int) : Int := (x + 2 ^ 31) % 2 ^ 32 - 2 ^ 31

/-- Conversion of an `int` to `guint64`. -/
def toUInt64 (x : Int) : Nat := (x % 2 ^ 64).toNat

/-- Lines 93-95: `if (chunk) chunk <<= 20;` on a `guint64`. -/
def megabytize (chunk : Nat) : Nat :=
  if chunk ≠ 0 then (chunk * 2 ^ 20) % 2 ^ 64 else chunk

/-! ## The program -/

/-- `EXIT_FAILURE`. -/
def EXIT_FAILURE : Nat := 1

/-- `EXIT_SUCCESS`. -/
def EXIT_SUCCESS : Nat := 0

/-- Lines 138-139: `if (the_counter > chunk) dream();`. `dream` sleeps and
sets `the_counter` to 0. Returns the new counter and the events. -/
def maybeDream (chunk : Nat) (the_counter : Int) : Int × List Event :=
  if toUInt64 the_counter > chunk then (0, [Event.usleep]) else (the_counter, [])

/-- Lines 63-74, `unlink_entry`: the returned flag is the `gboolean`, the
status is `exited EXIT_FAILURE` when the function calls `exit`. -/
def unlink_entry (force : Bool) (e : FTSENT) (sys : Sys) : Bool × Status × List Event :=
  if sys.unlinkOk then (true, Status.running, [Event.unlink e true])
  else if force then (false, Status.running, [Event.unlink e false])
  else (false, Status.exited EXIT_FAILURE, [Event.unlink e false])

/-- Lines 161-171, the truncation loop. `k` counts the `ftruncate` calls made
so far on this descriptor, `boundary` is the loop variable, the result's
`fds` is not used. One unit of fuel pays for one iteration. -/
def truncLoop (force : Bool) (chunk : Nat) (e : FTSENT) (sys : Sys) :
    Nat → Nat → Nat → Int → Out
  | 0, _, boundary, c =>
    if boundary ≥ chunk then ⟨Status.looping, c, 0, false, []⟩
    else ⟨Status.running, c, 0, false, []⟩
  | fuel + 1, k, boundary, c =>
    if boundary ≥ chunk then
      if sys.ftruncateOk k then
        let r := truncLoop force chunk e sys fuel (k + 1) (boundary - chunk) 0
        ⟨r.status, r.the_counter, 0, false,
          Event.ftruncate e (boundary - chunk) true :: Event.usleep :: r.events⟩
      else if force then
        ⟨Status.running, c, 0, false, [Event.ftruncate e (boundary - chunk) false]⟩
      else
        ⟨Status.exited EXIT_FAILURE, c, 0, false, [Event.ftruncate e (boundary - chunk) false]⟩
    else ⟨Status.running, c, 0, false, []⟩

/-- Lines 146-173, the large file case: open, unlink, truncation loop, close.
`fds` is the number of descriptors held on entry. -/
def largeFileCase (force : Bool) (chunk fuel : Nat) (e : FTSENT) (sys : Sys)
    (c : Int) (fds : Nat) : Out :=
  if sys.openOk then
    match unlink_entry force e sys with
    | (true, _, evs) =>
      let r := truncLoop force chunk e sys fuel 0 e.fts_statp.st_size c
      match r.status with
      | Status.running =>
        ⟨Status.running, r.the_counter, fds, false,
          Event.openRW e true :: evs ++ r.events ++ [Event.close e]⟩
      | s => ⟨s, r.the_counter, fds + 1, false, Event.openRW e true :: evs ++ r.events⟩
    | (false, s, evs) => ⟨s, c, fds + 1, false, Event.openRW e true :: evs⟩
  else if force then ⟨Status.running, c, fds, false, [Event.openRW e false]⟩
  else ⟨Status.exited EXIT_FAILURE, c, fds, false, [Event.openRW e false]⟩

/-- Lines 176-178, the small file case. -/
def smallFileCase (force : Bool) (e : FTSENT) (sys : Sys) (c : Int) (fds : Nat) : Out :=
  match unlink_entry force e sys with
  | (true, s, evs) => ⟨s, toInt32 (c + e.fts_statp.st_size), fds, false, evs⟩
  | (false, s, evs) => ⟨s, c, fds, false, evs⟩

/-- Lines 138-180, `case FTS_F`. -/
def caseF (force : Bool) (chunk fuel : Nat) (e : FTSENT) (sys : Sys)
    (c : Int) (fds : Nat) : Out :=
  let d := maybeDream chunk c
  let r :=
    if e.fts_statp.st_size > chunk ∧ e.fts_statp.st_nlink ≤ 1 then
      largeFileCase force chunk fuel e sys d.1 fds
    else smallFileCase force e sys d.1 fds
  { r with events := d.2 ++ r.events }

/-- Lines 101-184, the body of the `switch` for one entry. -/
def switchBody (recursive force : Bool) (chunk fuel : Nat) (e : FTSENT) (sys : Sys)
    (c : Int) (fds : Nat) : Out :=
  match e.fts_info with
  | FtsInfo.FTS_D =>
    if recursive then ⟨Status.running, c, fds, false, []⟩
    else if force then
      ⟨Status.running, c, fds, true, [Event.nonRecursiveDir e, Event.fts_skip e]⟩
    else ⟨Status.exited EXIT_FAILURE, c, fds, false, [Event.nonRecursiveDir e]⟩
  | FtsInfo.FTS_DP =>
    if sys.rmdirOk then ⟨Status.running, c, fds, false, [Event.rmdir e true]⟩
    else if force then ⟨Status.running, c, fds, false, [Event.rmdir e false]⟩
    else ⟨Status.exited EXIT_FAILURE, c, fds, false, [Event.rmdir e false]⟩
  | FtsInfo.FTS_F => caseF force chunk fuel e sys c fds
  | _ =>
    match unlink_entry force e sys with
    | (_, s, evs) => ⟨s, c, fds, false, evs⟩

/-- Lines 100-190, the `while ((e = fts_read(fts)))` loop and the return.
`skipBelow = some l` means `FTS_SKIP` was set on a directory of level `l`:
the walker then delivers none of its descendants (the following entries of
level above `l`) and goes on with the next entry of level at most `l`, which
for a well-formed walk is the directory's own `FTS_DP` visit. -/
def mainLoop (recursive force : Bool) (chunk fuel : Nat) :
    List (FTSENT × Sys) → Option Nat → Int → Nat → Out
  | [], _, c, fds => ⟨Status.exited EXIT_SUCCESS, c, fds, false, []⟩
  | (e, sys) :: rest, skipBelow, c, fds =>
    if skipBelow.any (fun l => decide (l < e.fts_level)) then
      mainLoop recursive force chunk fuel rest skipBelow c fds
    else
      let r := switchBody recursive force chunk fuel e sys c fds
      match r.status with
      | Status.running =>
        let r2 := mainLoop recursive force chunk fuel rest
          (if r.skip then some e.fts_level else none) r.the_counter r.fds
        { r2 with events := Event.fts_read e :: r.events ++ r2.events }
      | _ => { r with events := Event.fts_read e :: r.events }

/-- Lines 77-190, `main` after option parsing: without paths it exits with
`EXIT_FAILURE`, otherwise it converts `chunk` and runs the loop. `onefs` only
selects the `FTS_XDEV` flag of `fts_open`, that is, which walk is delivered. -/
def main (cfg : Config) (walk : List (FTSENT × Sys)) (fuel : Nat) : Out :=
  if cfg.paths.isEmpty then ⟨Status.exited EXIT_FAILURE, 0, 0, false, []⟩
  else mainLoop cfg.recursive cfg.force (megabytize cfg.chunk) fuel walk none 0 0

/-! ## Vocabulary of the properties -/

/-- A failed system call or the non-recursive directory report. -/
def Event.isFailure : Event → Bool
  | Event.nonRecursiveDir _ => true
  | Event.rmdir _ ok => !ok
  | Event.openRW _ ok => !ok
  | Event.unlink _ ok => !ok
  | Event.ftruncate _ _ ok => !ok
  | _ => false

/-- The entries the loop body ran on, in order. -/
def readEntries : List Event → List FTSENT
  | [] => []
  | Event.fts_read e :: evs => e :: readEntries evs
  | _ :: evs => readEntries evs

/-- The sequence `fts_read` delivers from a walk when every `FTS_D` entry is
answered with `FTS_SKIP` (`skipDirs = true`) or none is. -/
def delivered (skipDirs : Bool) : List (FTSENT × Sys) → Option Nat → List FTSENT
  | [], _ => []
  | (e, _) :: rest, skipBelow =>
    if skipBelow.any (fun l => decide (l < e.fts_level)) then delivered skipDirs rest skipBelow
    else e :: delivered skipDirs rest
      (if skipDirs && decide (e.fts_info = FtsInfo.FTS_D) then some e.fts_level else none)

/-- A regular file entry. -/
def file (path : String) (level size nlink : Nat) : FTSENT :=
  ⟨FtsInfo.FTS_F, path, level, ⟨size, nlink, 1⟩⟩

/-- A directory entry, `info` being `FTS_D` or `FTS_DP`. -/
def dir (info : FtsInfo) (path : String) (level dev : Nat) : FTSENT :=
  ⟨info, path, level, ⟨4096, 2, dev⟩⟩

/-- Every system call succeeds. -/
def allOk : Sys := ⟨true, true, true, fun _ => true⟩

/-- The lengths passed to `ftruncate`, in program order. -/
def truncLengths : List Event → List Nat
  | [] => []
  | Event.ftruncate _ n _ :: evs => n :: truncLengths evs
  | _ :: evs => truncLengths evs

/-- The events of `n` successful rounds of the truncation loop on a file of
size `S` with chunk `T`: round `k` (from 0) truncates to `S - (k + 1) * T`
and then sleeps. -/
def chunkRounds (e : FTSENT) (S T n : Nat) : List Event :=
  (List.range n).flatMap
    (fun k => [Event.ftruncate e (S - (k + 1) * T) true, Event.usleep])

/-- Shape of a run that stops at its first failure: either it exited with
`EXIT_FAILURE` and its last event is its only failure, or it did not exit
with a failure status and no event is a failure. -/
def FailStop (s : Status) (evs : List Event) : Prop :=
  (s = Status.exited EXIT_FAILURE ∧
    ∃ pre ev, evs = pre ++ [ev] ∧ (∀ x ∈ pre, x.isFailure = false) ∧ ev.isFailure = true) ∨
  ((s = Status.running ∨ s = Status.looping ∨ s = Status.exited EXIT_SUCCESS) ∧
    ∀ x ∈ evs, x.isFailure = false)

/-- The events of `case FTS_F`: pauses and the calls on the file. -/
def Event.isFileOp : Event → Bool
  | Event.usleep => true
  | Event.openRW _ _ => true
  | Event.unlink _ _ => true
  | Event.ftruncate _ _ _ => true
  | Event.close _ => true
  | _ => false

/-! ## The truncation loop -/

theorem chunkRounds_succ (e : FTSENT) (S T n : Nat) :
    chunkRounds e S T (n + 1) =
      Event.ftruncate e (S - T) true :: Event.usleep :: chunkRounds e (S - T) T n := by
  unfold chunkRounds
  rw [List.range_succ_eq_map, List.flatMap_cons, List.flatMap_map]
  simp only [Nat.zero_add, Nat.one_mul, List.cons_append, List.nil_append, List.cons.injEq,
    true_and]
  congr 1
  funext k
  simp only [Nat.succ_eq_add_one, Nat.sub_sub]
  congr 3
  ring

theorem truncLengths_chunkRounds (e : FTSENT) (S T n : Nat) :
    truncLengths (chunkRounds e S T n) = (List.range n).map (fun k => S - (k + 1) * T) := by
  induction n generalizing S with
  | zero => rfl
  | succ n ih =>
    rw [chunkRounds_succ, List.range_succ_eq_map]
    simp only [truncLengths, ih, List.map_cons, List.map_map, Nat.zero_add, Nat.one_mul,
      List.cons.injEq, true_and]
    apply List.map_congr_left
    intro k _
    simp only [Function.comp, Nat.succ_eq_add_one, Nat.sub_sub]
    congr 1
    ring

/-- With a chunk of at least one byte and successful truncations the loop
finishes within `boundary / chunk` iterations and issues exactly those
rounds. -/
theorem truncLoop_allOk (force : Bool) (chunk : Nat) (e : FTSENT) (sys : Sys)
    (hT : 1 ≤ chunk) (hok : ∀ k, sys.ftruncateOk k = true) :
    ∀ (fuel k boundary : Nat) (c : Int), boundary / chunk ≤ fuel →
      truncLoop force chunk e sys fuel k boundary c =
        ⟨Status.running, if boundary ≥ chunk then 0 else c, 0, false,
          chunkRounds e boundary chunk (boundary / chunk)⟩ := by
  intro fuel
  induction fuel with
  | zero =>
    intro k boundary c h
    have hlt : boundary < chunk := by
      have := (Nat.div_eq_zero_iff (by omega : 0 < chunk)).1 (Nat.le_zero.1 h)
      exact this
    have hd : boundary / chunk = 0 := Nat.div_eq_of_lt hlt
    simp [truncLoop, Nat.not_le.2 hlt, hd, chunkRounds]
  | succ fuel ih =>
    intro k boundary c h
    by_cases hb : boundary ≥ chunk
    · have hd : boundary / chunk = (boundary - chunk) / chunk + 1 :=
        Nat.div_eq_sub_div (by omega) hb
      have h2 : (boundary - chunk) / chunk ≤ fuel := by omega
      have hrec := ih (k + 1) (boundary - chunk) 0 h2
      simp only [truncLoop, hb, if_true, hok, hrec, hd, chunkRounds_succ, ite_self]
    · have hlt : boundary < chunk := Nat.not_le.1 hb
      have hd : boundary / chunk = 0 := Nat.div_eq_of_lt hlt
      simp [truncLoop, hb, hd, chunkRounds]

/-- While fuel is below `boundary / chunk` the loop is still going. -/
theorem truncLoop_short (force : Bool) (chunk : Nat) (e : FTSENT) (sys : Sys)
    (hT : 1 ≤ chunk) (hok : ∀ k, sys.ftruncateOk k = true) :
    ∀ (fuel k boundary : Nat) (c : Int), fuel < boundary / chunk →
      (truncLoop force chunk e sys fuel k boundary c).status = Status.looping := by
  intro fuel
  induction fuel with
  | zero =>
    intro k boundary c h
    have hb : boundary ≥ chunk := by
      by_contra hlt
      rw [Nat.div_eq_of_lt (Nat.not_le.1 hlt)] at h
      omega
    simp [truncLoop, hb]
  | succ fuel ih =>
    intro k boundary c h
    have hb : boundary ≥ chunk := by
      by_contra hlt
      rw [Nat.div_eq_of_lt (Nat.not_le.1 hlt)] at h
      omega
    have hd : boundary / chunk = (boundary - chunk) / chunk + 1 :=
      Nat.div_eq_sub_div (by omega) hb
    have hrec := ih (k + 1) (boundary - chunk) 0 (by omega)
    simp only [truncLoop, hb, if_true, hok, hrec]

/-- With a chunk of zero and successful truncations the loop never leaves:
whatever the fuel, it is still looping, having truncated to the unchanged
boundary once per unit of fuel. -/
theorem truncLoop_chunk_zero (force : Bool) (e : FTSENT) (sys : Sys)
    (hok : ∀ k, sys.ftruncateOk k = true) :
    ∀ (fuel k boundary : Nat) (c : Int),
      (truncLoop force 0 e sys fuel k boundary c).status = Status.looping ∧
      (truncLoop force 0 e sys fuel k boundary c).events =
        (List.range fuel).flatMap (fun _ => [Event.ftruncate e boundary true, Event.usleep]) := by
  intro fuel
  induction fuel with
  | zero => intro k boundary c; simp [truncLoop]
  | succ fuel ih =>
    intro k boundary c
    have hrec := ih (k + 1) boundary 0
    rw [List.range_succ_eq_map, List.flatMap_cons, List.flatMap_map]
    simp only [truncLoop, Nat.zero_le, ge_iff_le, if_true, hok, Nat.sub_zero, hrec.1, hrec.2,
      true_and, List.cons_append, List.nil_append, Function.comp_def]

theorem megabytize_eq_zero (chunk : Nat) (h : chunk < 2 ^ 44) :
    megabytize chunk = 0 ↔ chunk = 0 := by
  unfold megabytize
  by_cases hc : chunk = 0
  · simp [hc]
  · have hlt : chunk * 2 ^ 20 < 2 ^ 64 := by
      have : chunk * 2 ^ 20 < 2 ^ 44 * 2 ^ 20 := Nat.mul_lt_mul_of_pos_right h (by norm_num)
      simpa using this
    simp only [ne_eq, hc, not_false_eq_true, if_true, Nat.mod_eq_of_lt hlt, iff_false]
    intro h0
    rcases Nat.mul_eq_zero.1 h0 with h1 | h1
    · exact hc h1
    · norm_num at h1

theorem chunkRounds_lengths_decreasing (S T : Nat) (hT : 1 ≤ T) :
    ((List.range (S / T)).map (fun k => S - (k + 1) * T)).Pairwise (fun a b => a > b) := by
  rw [List.pairwise_map]
  refine List.Pairwise.imp_of_mem ?_ (List.pairwise_lt_range (S / T))
  intro i j _ hj hij
  have hj2 : j + 1 ≤ S / T := by
    have := List.mem_range.1 hj
    omega
  have h1 : (j + 1) * T ≤ S := by
    calc (j + 1) * T ≤ (S / T) * T := Nat.mul_le_mul_right T hj2
      _ ≤ S := Nat.div_mul_le_self S T
  have h2 : (i + 1) * T < (j + 1) * T := by
    apply Nat.mul_lt_mul_of_pos_right _ (by omega)
    omega
  show S - (i + 1) * T > S - (j + 1) * T
  omega

/-! ## Shredding one large file -/

/-- C1 (amended): for a regular file of size `S` and a threshold `T` with
`1 ≤ T < S` and hard-link count 1, when `open`, `unlink` and every
`ftruncate` succeed, `case FTS_F` (given fuel for `S / T` iterations) falls
through to the next entry having issued, after the rate check, exactly:
the `open`, the `unlink`, then `S / T` rounds of which round `k` truncates to
`S - k * T` and sleeps once, then the `close`. The last boundary
`S - (S / T) * T` is below `T`. -/
theorem shred_rounds (force : Bool) (T fuel : Nat) (e : FTSENT) (sys : Sys) (c : Int)
    (fds : Nat) (hT : 1 ≤ T) (hS : e.fts_statp.st_size > T) (hn : e.fts_statp.st_nlink = 1)
    (hopen : sys.openOk = true) (hunlink : sys.unlinkOk = true)
    (hok : ∀ k, sys.ftruncateOk k = true) (hfuel : e.fts_statp.st_size / T ≤ fuel) :
    (caseF force T fuel e sys c fds).status = Status.running ∧
    (caseF force T fuel e sys c fds).events =
      (maybeDream T c).2 ++
        (Event.openRW e true :: Event.unlink e true ::
          ((List.range (e.fts_statp.st_size / T)).flatMap
            (fun k => [Event.ftruncate e (e.fts_statp.st_size - (k + 1) * T) true,
                       Event.usleep])
            ++ [Event.close e])) ∧
    truncLengths (caseF force T fuel e sys c fds).events =
      (List.range (e.fts_statp.st_size / T)).map
        (fun k => e.fts_statp.st_size - (k + 1) * T) ∧
    e.fts_statp.st_size - (e.fts_statp.st_size / T) * T < T := by
  have hloop := truncLoop_allOk force T e sys hT hok fuel 0 e.fts_statp.st_size
    (maybeDream T c).1 hfuel
  have hev : (caseF force T fuel e sys c fds).events =
      (maybeDream T c).2 ++
        (Event.openRW e true :: Event.unlink e true ::
          (chunkRounds e e.fts_statp.st_size T (e.fts_statp.st_size / T)
            ++ [Event.close e])) := by
    simp [caseF, largeFileCase, unlink_entry, hS, hn, hopen, hunlink, hloop]
  refine ⟨?_, hev, ?_, ?_⟩
  · simp [caseF, largeFileCase, unlink_entry, hS, hn, hopen, hunlink, hloop]
  · rw [hev, ← truncLengths_chunkRounds e]
    have happ : ∀ (a b : List Event), truncLengths (a ++ b) = truncLengths a ++ truncLengths b := by
      intro a b
      induction a with
      | nil => rfl
      | cons x xs ih => cases x <;> simp [truncLengths, ih]
    rw [happ]
    have hd : truncLengths (maybeDream T c).2 = [] := by
      unfold maybeDream; split <;> rfl
    simp [hd, truncLengths, happ]
  · have := Nat.mod_lt e.fts_statp.st_size (by omega : T > 0)
    have h2 := Nat.div_add_mod e.fts_statp.st_size T
    rw [Nat.mul_comm] at h2
    omega

/-- Witness of `shred_rounds`: a file of 10 bytes and a threshold of 5. -/
theorem shred_rounds_witness :
    (caseF false 5 2 (file "d/big" 1 10 1) allOk 0 0).status = Status.running ∧
    (caseF false 5 2 (file "d/big" 1 10 1) allOk 0 0).events =
      [Event.openRW (file "d/big" 1 10 1) true, Event.unlink (file "d/big" 1 10 1) true,
       Event.ftruncate (file "d/big" 1 10 1) 5 true, Event.usleep,
       Event.ftruncate (file "d/big" 1 10 1) 0 true, Event.usleep,
       Event.close (file "d/big" 1 10 1)] :=
  have h := shred_rounds false 5 2 (file "d/big" 1 10 1) allOk 0 0 (by decide) (by decide)
    (by decide) rfl rfl (fun _ => rfl) (by decide)
  ⟨h.1, h.2.1.trans (by decide)⟩

/-- C1 (counterexample): with threshold 0 a one-byte file with a single link
satisfies `S > T`, every call succeeds, and yet shredding never completes:
for every fuel the loop is still running and has made as many truncations as
it had fuel, each to the full length 1, so no finite number of steps (in
particular not `1 / 0`) is the number of truncation steps. -/
theorem shred_rounds_fails_at_zero :
    (file "f" 0 1 1).fts_statp.st_size > 0 ∧
    ∀ fuel, (caseF false 0 fuel (file "f" 0 1 1) allOk 0 0).status = Status.looping ∧
      truncLengths (caseF false 0 fuel (file "f" 0 1 1) allOk 0 0).events =
        List.replicate fuel 1 := by
  refine ⟨by decide, fun fuel => ?_⟩
  have h := truncLoop_chunk_zero false (file "f" 0 1 1) allOk (fun _ => rfl) fuel 0 1 0
  have hrep : ∀ n : Nat, truncLengths
      ((List.range n).flatMap
        (fun _ => [Event.ftruncate (file "f" 0 1 1) 1 true, Event.usleep])) =
      List.replicate n 1 := by
    intro n
    induction n with
    | zero => rfl
    | succ n ih =>
      rw [List.range_succ_eq_map, List.flatMap_cons, List.flatMap_map]
      simpa [truncLengths, List.replicate_succ, Function.comp_def] using ih
  have hsz : (file "f" 0 1 1).fts_statp.st_size = 1 := rfl
  have hd : maybeDream 0 0 = (0, []) := by decide
  have hcond : (file "f" 0 1 1).fts_statp.st_size > 0 ∧
      (file "f" 0 1 1).fts_statp.st_nlink ≤ 1 := by decide
  have hs : (caseF false 0 fuel (file "f" 0 1 1) allOk 0 0).status = Status.looping := by
    have ho : allOk.openOk = true := rfl
    have hu : allOk.unlinkOk = true := rfl
    have hnl : (file "f" 0 1 1).fts_statp.st_nlink = 1 := rfl
    simp [caseF, hd, largeFileCase, unlink_entry, hsz, hnl, ho, hu, h.1]
  have he : (caseF false 0 fuel (file "f" 0 1 1) allOk 0 0).events =
      Event.openRW (file "f" 0 1 1) true :: Event.unlink (file "f" 0 1 1) true ::
        (List.range fuel).flatMap
          (fun _ => [Event.ftruncate (file "f" 0 1 1) 1 true, Event.usleep]) := by
    have ho : allOk.openOk = true := rfl
    have hu : allOk.unlinkOk = true := rfl
    have hnl : (file "f" 0 1 1).fts_statp.st_nlink = 1 := rfl
    simp [caseF, hd, largeFileCase, unlink_entry, hsz, hnl, ho, hu, h.1, h.2]
  refine ⟨hs, ?_⟩
  rw [he]
  simp only [truncLengths]
  exact hrep fuel

/-- C10: given that truncations succeed, the truncation loop started at
boundary `S` leaves (for some fuel) exactly when the threshold `T` is at least
1. For `1 ≤ T`, any fuel of at least `S / T` is enough: it falls out of the
loop after `S / T` truncations, to the lengths `S - T, S - 2T, ...`, each
below `S` and strictly decreasing. For `T = 0` it is still looping whatever
the fuel, every round truncating to the unchanged `S` and sleeping. The
megabyte conversion maps 0 to 0, and with threshold 0 every non-empty
regular file with at most one link goes to the `open` of the large file
case. -/
theorem truncLoop_terminates_iff (force : Bool) (T S : Nat) (e : FTSENT) (sys : Sys)
    (c : Int) (hok : ∀ k, sys.ftruncateOk k = true) :
    ((∃ fuel, (truncLoop force T e sys fuel 0 S c).status ≠ Status.looping) ↔ 1 ≤ T) ∧
    (1 ≤ T → ∀ fuel, S / T ≤ fuel →
      (truncLoop force T e sys fuel 0 S c).status = Status.running ∧
      truncLengths (truncLoop force T e sys fuel 0 S c).events =
        (List.range (S / T)).map (fun k => S - (k + 1) * T) ∧
      (truncLengths (truncLoop force T e sys fuel 0 S c).events).length = S / T ∧
      (∀ n ∈ truncLengths (truncLoop force T e sys fuel 0 S c).events, n < S) ∧
      (truncLengths (truncLoop force T e sys fuel 0 S c).events).Pairwise
        (fun a b => a > b)) ∧
    (T = 0 → ∀ fuel,
      (truncLoop force T e sys fuel 0 S c).status = Status.looping ∧
      (truncLoop force T e sys fuel 0 S c).events =
        (List.range fuel).flatMap (fun _ => [Event.ftruncate e S true, Event.usleep])) ∧
    megabytize 0 = 0 ∧
    (0 < e.fts_statp.st_size → e.fts_statp.st_nlink ≤ 1 → ∀ fuel c2 fds,
      Event.openRW e sys.openOk ∈ (caseF force 0 fuel e sys c2 fds).events) := by
  have hpos : 1 ≤ T → ∀ fuel, S / T ≤ fuel →
      (truncLoop force T e sys fuel 0 S c).status = Status.running ∧
      truncLengths (truncLoop force T e sys fuel 0 S c).events =
        (List.range (S / T)).map (fun k => S - (k + 1) * T) := by
    intro hT fuel hfuel
    rw [truncLoop_allOk force T e sys hT hok fuel 0 S c hfuel]
    exact ⟨rfl, truncLengths_chunkRounds e S T (S / T)⟩
  have hzero : T = 0 → ∀ fuel,
      (truncLoop force T e sys fuel 0 S c).status = Status.looping ∧
      (truncLoop force T e sys fuel 0 S c).events =
        (List.range fuel).flatMap (fun _ => [Event.ftruncate e S true, Event.usleep]) := by
    intro hT fuel
    subst hT
    exact truncLoop_chunk_zero force e sys hok fuel 0 S c
  refine ⟨⟨?_, ?_⟩, ?_, hzero, rfl, ?_⟩
  · rintro ⟨fuel, hne⟩
    by_contra hT
    exact hne (hzero (by omega) fuel).1
  · intro hT
    exact ⟨S / T, by rw [(hpos hT (S / T) (Nat.le_refl _)).1]; decide⟩
  · intro hT fuel hfuel
    obtain ⟨h1, h2⟩ := hpos hT fuel hfuel
    refine ⟨h1, h2, ?_, ?_, ?_⟩
    · rw [h2]; simp
    · rw [h2]
      intro n hn
      rcases List.mem_map.1 hn with ⟨k, hk, rfl⟩
      have hk2 : k + 1 ≤ S / T := by
        have := List.mem_range.1 hk
        omega
      have h3 : (k + 1) * T ≤ S :=
        (Nat.mul_le_mul_right T hk2).trans (Nat.div_mul_le_self S T)
      have h4 : 1 ≤ (k + 1) * T := Nat.mul_pos (by omega) hT
      omega
    · rw [h2]
      exact chunkRounds_lengths_decreasing S T hT
  · intro hsz hnl fuel c2 fds
    have hcond : e.fts_statp.st_size > 0 ∧ e.fts_statp.st_nlink ≤ 1 := ⟨hsz, hnl⟩
    simp only [caseF, hcond, and_self, if_true]
    apply List.mem_append_right
    unfold largeFileCase unlink_entry
    cases sys.openOk <;> cases sys.unlinkOk <;> cases force <;> simp
    all_goals split <;> simp

/-- Witness of `truncLoop_terminates_iff`: boundary 10 with thresholds 5 and
0. -/
theorem truncLoop_terminates_iff_witness :
    ((∃ fuel, (truncLoop false 5 (file "f" 0 10 1) allOk fuel 0 10 0).status
        ≠ Status.looping) ↔ 1 ≤ 5) ∧
    truncLengths (truncLoop false 5 (file "f" 0 10 1) allOk 2 0 10 0).events = [5, 0] ∧
    ((∃ fuel, (truncLoop false 0 (file "f" 0 10 1) allOk fuel 0 10 0).status
        ≠ Status.looping) ↔ 1 ≤ 0) ∧
    (truncLoop false 0 (file "f" 0 10 1) allOk 3 0 10 0).status = Status.looping :=
  have h5 := truncLoop_terminates_iff false 5 10 (file "f" 0 10 1) allOk 0 (fun _ => rfl)
  have h0 := truncLoop_terminates_iff false 0 10 (file "f" 0 10 1) allOk 0 (fun _ => rfl)
  ⟨h5.1, (h5.2.1 (by decide) 2 (by decide)).2.1.trans (by decide), h0.1,
    (h0.2.2.1 rfl 3).1⟩

/-! ## The rate counter and the shredder -/

theorem truncLoop_counter (force : Bool) (chunk : Nat) (e : FTSENT) (sys : Sys) :
    ∀ (fuel k boundary : Nat) (c : Int),
      (truncLoop force chunk e sys fuel k boundary c).the_counter =
        if Event.usleep ∈ (truncLoop force chunk e sys fuel k boundary c).events then 0
        else c := by
  intro fuel
  induction fuel with
  | zero => intro k boundary c; unfold truncLoop; split <;> simp
  | succ fuel ih =>
    intro k boundary c
    have hrec := ih (k + 1) (boundary - chunk) 0
    unfold truncLoop
    by_cases hb : boundary ≥ chunk
    · cases hk : sys.ftruncateOk k
      · cases force <;> simp [hb]
      · simp only [hb, if_true, List.mem_cons, true_or, or_true]
        rw [hrec]; simp
    · simp [hb]

theorem truncLoop_pause_iff (force : Bool) (chunk : Nat) (e : FTSENT) (sys : Sys) :
    ∀ (fuel k boundary : Nat) (c : Int),
      Event.usleep ∈ (truncLoop force chunk e sys fuel k boundary c).events ↔
        ∃ n, Event.ftruncate e n true ∈ (truncLoop force chunk e sys fuel k boundary c).events := by
  intro fuel
  induction fuel with
  | zero => intro k boundary c; unfold truncLoop; split <;> simp
  | succ fuel _ =>
    intro k boundary c
    unfold truncLoop
    by_cases hb : boundary ≥ chunk
    · cases sys.ftruncateOk k
      · cases force <;> simp [hb]
      · simp only [hb, if_true, List.mem_cons, true_or, or_true, true_iff]
        exact ⟨boundary - chunk, Or.inl rfl⟩
    · simp [hb]

theorem truncLoop_first_fails (force : Bool) (chunk : Nat) (e : FTSENT) (sys : Sys)
    (k : Nat) (hk : sys.ftruncateOk k = false) (fuel boundary : Nat) (c : Int) :
    Event.usleep ∉ (truncLoop force chunk e sys fuel k boundary c).events := by
  cases fuel with
  | zero => unfold truncLoop; split <;> simp
  | succ fuel =>
    unfold truncLoop
    by_cases hb : boundary ≥ chunk
    · cases force <;> simp [hb, hk]
    · simp [hb]

theorem truncLoop_first_succeeds (force : Bool) (chunk : Nat) (e : FTSENT) (sys : Sys)
    (k : Nat) (hk : sys.ftruncateOk k = true) (fuel boundary : Nat) (c : Int)
    (hb : boundary ≥ chunk) :
    Event.ftruncate e (boundary - chunk) true ∈
      (truncLoop force chunk e sys (fuel + 1) k boundary c).events := by
  unfold truncLoop
  simp [hb, hk]

theorem largeFileCase_counter (force : Bool) (chunk fuel : Nat) (e : FTSENT) (sys : Sys)
    (c : Int) (fds : Nat) :
    (largeFileCase force chunk fuel e sys c fds).the_counter =
      if Event.usleep ∈ (largeFileCase force chunk fuel e sys c fds).events then 0 else c := by
  have h := truncLoop_counter force chunk e sys fuel 0 e.fts_statp.st_size c
  unfold largeFileCase unlink_entry
  cases sys.openOk <;> cases sys.unlinkOk <;> cases force <;> simp
  all_goals
    split <;> simp only [List.mem_append, List.mem_cons, List.mem_singleton, false_or,
      or_false, List.not_mem_nil, reduceCtorEq] <;> exact h

/-- The events of the large file case are those of the truncation loop plus
the `open`, the `unlink` and the `close`, none of which is a pause or a
successful truncation. -/
theorem largeFileCase_loop_events (force : Bool) (chunk fuel : Nat) (e : FTSENT) (sys : Sys)
    (c : Int) (fds : Nat) :
    (Event.usleep ∈ (largeFileCase force chunk fuel e sys c fds).events ↔
      sys.openOk = true ∧ sys.unlinkOk = true ∧
        Event.usleep ∈ (truncLoop force chunk e sys fuel 0 e.fts_statp.st_size c).events) ∧
    (∀ n, Event.ftruncate e n true ∈ (largeFileCase force chunk fuel e sys c fds).events ↔
      sys.openOk = true ∧ sys.unlinkOk = true ∧
        Event.ftruncate e n true ∈
          (truncLoop force chunk e sys fuel 0 e.fts_statp.st_size c).events) := by
  unfold largeFileCase unlink_entry
  cases sys.openOk <;> cases sys.unlinkOk <;> cases force <;> simp
  all_goals
    constructor
    · split <;> simp
    · intro n
      split <;> simp

/-- C4 (amended): the shredder never adds the file's size to the rate counter,
but its per-step pause is `dream`, which also zeroes the counter. After the
large file case the counter is 0 if at least one truncation succeeded and is
the value `c` it had on entry otherwise; a pause is made exactly when a
truncation succeeded. In particular the counter is still `c` when the `open`,
the `unlink` or the first `ftruncate` fails, and it is 0 when all three
succeed on a file of at least `chunk` bytes (given fuel for one iteration). -/
theorem shred_counter (force : Bool) (chunk fuel : Nat) (e : FTSENT) (sys : Sys)
    (c : Int) (fds : Nat) :
    ((∃ n, Event.ftruncate e n true ∈ (largeFileCase force chunk fuel e sys c fds).events) →
      (largeFileCase force chunk fuel e sys c fds).the_counter = 0) ∧
    ((¬ ∃ n, Event.ftruncate e n true ∈ (largeFileCase force chunk fuel e sys c fds).events) →
      (largeFileCase force chunk fuel e sys c fds).the_counter = c) ∧
    (Event.usleep ∈ (largeFileCase force chunk fuel e sys c fds).events ↔
      ∃ n, Event.ftruncate e n true ∈ (largeFileCase force chunk fuel e sys c fds).events) ∧
    (sys.openOk = false ∨ sys.unlinkOk = false ∨ sys.ftruncateOk 0 = false →
      (¬ ∃ n, Event.ftruncate e n true ∈
        (largeFileCase force chunk fuel e sys c fds).events) ∧
      (largeFileCase force chunk fuel e sys c fds).the_counter = c) ∧
    (sys.openOk = true → sys.unlinkOk = true → sys.ftruncateOk 0 = true →
      e.fts_statp.st_size ≥ chunk → 1 ≤ fuel →
      Event.ftruncate e (e.fts_statp.st_size - chunk) true ∈
        (largeFileCase force chunk fuel e sys c fds).events ∧
      (largeFileCase force chunk fuel e sys c fds).the_counter = 0) := by
  have hcnt := largeFileCase_counter force chunk fuel e sys c fds
  obtain ⟨hu, hf⟩ := largeFileCase_loop_events force chunk fuel e sys c fds
  have hloop := truncLoop_pause_iff force chunk e sys fuel 0 e.fts_statp.st_size c
  have hiff : Event.usleep ∈ (largeFileCase force chunk fuel e sys c fds).events ↔
      ∃ n, Event.ftruncate e n true ∈ (largeFileCase force chunk fuel e sys c fds).events := by
    constructor
    · intro h
      obtain ⟨ho, hl, hin⟩ := hu.1 h
      obtain ⟨n, hn⟩ := hloop.1 hin
      exact ⟨n, (hf n).2 ⟨ho, hl, hn⟩⟩
    · rintro ⟨n, hn⟩
      obtain ⟨ho, hl, hin⟩ := (hf n).1 hn
      exact hu.2 ⟨ho, hl, hloop.2 ⟨n, hin⟩⟩
  have hyes : (∃ n, Event.ftruncate e n true ∈
      (largeFileCase force chunk fuel e sys c fds).events) →
      (largeFileCase force chunk fuel e sys c fds).the_counter = 0 := by
    intro h
    rw [hcnt, if_pos (hiff.2 h)]
  have hno : (¬ ∃ n, Event.ftruncate e n true ∈
      (largeFileCase force chunk fuel e sys c fds).events) →
      (largeFileCase force chunk fuel e sys c fds).the_counter = c := by
    intro h
    rw [hcnt, if_neg (fun hp => h (hiff.1 hp))]
  refine ⟨hyes, hno, hiff, ?_, ?_⟩
  · intro hfail
    have hnone : ¬ ∃ n, Event.ftruncate e n true ∈
        (largeFileCase force chunk fuel e sys c fds).events := by
      rintro ⟨n, hn⟩
      obtain ⟨ho, hl, hin⟩ := (hf n).1 hn
      rcases hfail with h | h | h
      · rw [ho] at h; cases h
      · rw [hl] at h; cases h
      · exact truncLoop_first_fails force chunk e sys 0 h fuel e.fts_statp.st_size c
          (hloop.2 ⟨n, hin⟩)
    exact ⟨hnone, hno hnone⟩
  · intro ho hl hk hb hfuel
    obtain ⟨m, rfl⟩ : ∃ m, fuel = m + 1 := ⟨fuel - 1, by omega⟩
    have hin := truncLoop_first_succeeds force chunk e sys 0 hk m e.fts_statp.st_size c hb
    have hmem := (hf (e.fts_statp.st_size - chunk)).2 ⟨ho, hl, hin⟩
    exact ⟨hmem, hyes ⟨_, hmem⟩⟩

/-- Witness of `shred_counter`: with threshold 5 and counter 3, a 10-byte file
whose calls all succeed leaves the counter at 0, and the same file whose
`unlink` fails (in force mode) leaves it at 3. -/
theorem shred_counter_witness :
    (Event.ftruncate (file "big" 0 10 1) (10 - 5) true ∈
        (largeFileCase false 5 2 (file "big" 0 10 1) allOk 3 0).events ∧
      (largeFileCase false 5 2 (file "big" 0 10 1) allOk 3 0).the_counter = 0) ∧
    ((¬ ∃ n, Event.ftruncate (file "big" 0 10 1) n true ∈
        (largeFileCase true 5 2 (file "big" 0 10 1)
          ⟨true, false, true, fun _ => true⟩ 3 0).events) ∧
      (largeFileCase true 5 2 (file "big" 0 10 1)
        ⟨true, false, true, fun _ => true⟩ 3 0).the_counter = 3) :=
  ⟨(shred_counter false 5 2 (file "big" 0 10 1) allOk 3 0).2.2.2.2 rfl rfl rfl
      (by decide) (by decide),
   (shred_counter true 5 2 (file "big" 0 10 1) ⟨true, false, true, fun _ => true⟩ 3 0).2.2.2.1
      (Or.inr (Or.inl rfl))⟩

/-- C4 (counterexample): with threshold 5 and counter 3 (so the rate check
does not pause), shredding a 10-byte single-link file with every call
succeeding leaves the counter at 0, not at 3. -/
theorem shred_counter_not_preserved :
    maybeDream 5 3 = (3, []) ∧
    (largeFileCase false 5 2 (file "big" 0 10 1) allOk 3 0).status = Status.running ∧
    (largeFileCase false 5 2 (file "big" 0 10 1) allOk 3 0).the_counter = 0 ∧
    (largeFileCase false 5 2 (file "big" 0 10 1) allOk 3 0).the_counter ≠ 3 := by
  decide

/-! ## Eligibility -/

/-- C9: on a regular-file entry of size `s` with `n` links the program issues
an `open` exactly when `s > T` and `n ≤ 1`; then it runs the large file case
(which starts with that `open`), and otherwise all it does after the rate
check is the one `unlink` of the small file case, with no `open` and no
`ftruncate`, however large `s` is. -/
theorem eligibility (force : Bool) (T fuel : Nat) (e : FTSENT) (sys : Sys)
    (c : Int) (fds : Nat) :
    ((∃ ok, Event.openRW e ok ∈ (caseF force T fuel e sys c fds).events) ↔
      (e.fts_statp.st_size > T ∧ e.fts_statp.st_nlink ≤ 1)) ∧
    ((e.fts_statp.st_size > T ∧ e.fts_statp.st_nlink ≤ 1) →
      (caseF force T fuel e sys c fds).events =
        (maybeDream T c).2 ++ (largeFileCase force T fuel e sys (maybeDream T c).1 fds).events ∧
      (largeFileCase force T fuel e sys (maybeDream T c).1 fds).events.head? =
        some (Event.openRW e sys.openOk)) ∧
    (¬ (e.fts_statp.st_size > T ∧ e.fts_statp.st_nlink ≤ 1) →
      (caseF force T fuel e sys c fds).events =
        (maybeDream T c).2 ++ [Event.unlink e sys.unlinkOk] ∧
      truncLengths (caseF force T fuel e sys c fds).events = []) := by
  have hhead : (largeFileCase force T fuel e sys (maybeDream T c).1 fds).events.head? =
      some (Event.openRW e sys.openOk) := by
    unfold largeFileCase unlink_entry
    cases sys.openOk <;> cases sys.unlinkOk <;> cases force <;> simp
    all_goals split <;> simp
  have hsmall : ¬ (e.fts_statp.st_size > T ∧ e.fts_statp.st_nlink ≤ 1) →
      (caseF force T fuel e sys c fds).events =
        (maybeDream T c).2 ++ [Event.unlink e sys.unlinkOk] := by
    intro hne
    simp only [caseF, hne, if_false, smallFileCase, unlink_entry]
    cases sys.unlinkOk <;> cases force <;> simp
  have hdream : (maybeDream T c).2 = [] ∨ (maybeDream T c).2 = [Event.usleep] := by
    unfold maybeDream; split <;> simp
  refine ⟨⟨?_, ?_⟩, ?_, ?_⟩
  · rintro ⟨ok, hmem⟩
    by_contra hne
    rw [hsmall hne] at hmem
    rcases hdream with hd | hd <;> rw [hd] at hmem <;> simp at hmem
  · intro hel
    refine ⟨sys.openOk, ?_⟩
    simp only [caseF, hel, and_self, if_true]
    apply List.mem_append_right
    exact List.mem_of_mem_head? hhead
  · intro hel
    refine ⟨?_, hhead⟩
    simp only [caseF, hel, and_self, if_true]
  · intro hne
    refine ⟨hsmall hne, ?_⟩
    rw [hsmall hne]
    rcases hdream with hd | hd <;> rw [hd] <;> rfl

/-- Witness of `eligibility`: with threshold 5, a 10-byte file with one link is
shredded and a 10-byte file with two links is unlinked directly. -/
theorem eligibility_witness :
    (∃ ok, Event.openRW (file "a" 0 10 1) ok ∈
      (caseF false 5 2 (file "a" 0 10 1) allOk 0 0).events) ∧
    (caseF false 5 2 (file "b" 0 10 2) allOk 0 0).events =
      [] ++ [Event.unlink (file "b" 0 10 2) true] :=
  ⟨(eligibility false 5 2 (file "a" 0 10 1) allOk 0 0).1.2 (by decide),
   ((eligibility false 5 2 (file "b" 0 10 2) allOk 0 0).2.2 (by decide)).1⟩

/-! ## Failure propagation without `--force` -/

theorem FailStop.prepend {s : Status} {evs : List Event} (pre : List Event)
    (hpre : ∀ x ∈ pre, x.isFailure = false) (h : FailStop s evs) :
    FailStop s (pre ++ evs) := by
  rcases h with ⟨hs, p, ev, hevs, hp, hev⟩ | ⟨hs, hall⟩
  · left
    refine ⟨hs, pre ++ p, ev, by rw [hevs, List.append_assoc], ?_, hev⟩
    intro x hx
    rcases List.mem_append.1 hx with h1 | h1
    · exact hpre x h1
    · exact hp x h1
  · right
    refine ⟨hs, ?_⟩
    intro x hx
    rcases List.mem_append.1 hx with h1 | h1
    · exact hpre x h1
    · exact hall x h1

theorem FailStop.clean_of_running {evs : List Event} (h : FailStop Status.running evs) :
    ∀ x ∈ evs, x.isFailure = false := by
  rcases h with ⟨hs, _⟩ | ⟨_, hall⟩
  · cases hs
  · exact hall

theorem failStop_unlink_entry (e : FTSENT) (sys : Sys) :
    FailStop (unlink_entry false e sys).2.1 (unlink_entry false e sys).2.2 ∧
    ((unlink_entry false e sys).1 = true →
      (unlink_entry false e sys).2.2 = [Event.unlink e true]) ∧
    ((unlink_entry false e sys).1 = false →
      (unlink_entry false e sys).2.1 = Status.exited EXIT_FAILURE) := by
  unfold unlink_entry
  cases sys.unlinkOk
  · refine ⟨Or.inl ⟨by simp, [], Event.unlink e false, by simp, by simp, rfl⟩, by simp, by simp⟩
  · refine ⟨Or.inr ⟨Or.inl (by simp), ?_⟩, by simp, by simp⟩
    intro x hx
    simp at hx
    subst hx
    rfl

theorem failStop_truncLoop (chunk : Nat) (e : FTSENT) (sys : Sys) :
    ∀ (fuel k boundary : Nat) (c : Int),
      FailStop (truncLoop false chunk e sys fuel k boundary c).status
        (truncLoop false chunk e sys fuel k boundary c).events ∧
      (truncLoop false chunk e sys fuel k boundary c).status ≠
        Status.exited EXIT_SUCCESS := by
  intro fuel
  induction fuel with
  | zero =>
    intro k boundary c
    unfold truncLoop
    split
    · exact ⟨Or.inr ⟨Or.inr (Or.inl rfl), by simp⟩, by simp⟩
    · exact ⟨Or.inr ⟨Or.inl rfl, by simp⟩, by simp⟩
  | succ fuel ih =>
    intro k boundary c
    obtain ⟨hrec, hne⟩ := ih (k + 1) (boundary - chunk) 0
    unfold truncLoop
    by_cases hb : boundary ≥ chunk
    · cases hk : sys.ftruncateOk k
      · simp only [hb, if_true, Bool.false_eq_true, if_false]
        exact ⟨Or.inl ⟨rfl, [], Event.ftruncate e (boundary - chunk) false, by simp, by simp,
          rfl⟩, by simp [EXIT_FAILURE, EXIT_SUCCESS]⟩
      · simp only [hb, if_true]
        refine ⟨?_, hne⟩
        have := FailStop.prepend [Event.ftruncate e (boundary - chunk) true, Event.usleep]
          (by intro x hx; simp at hx; rcases hx with rfl | rfl <;> rfl) hrec
        simpa using this
    · simp only [hb, if_false]
      exact ⟨Or.inr ⟨Or.inl rfl, by simp⟩, by simp⟩

theorem failStop_largeFileCase (chunk fuel : Nat) (e : FTSENT) (sys : Sys) (c : Int)
    (fds : Nat) :
    FailStop (largeFileCase false chunk fuel e sys c fds).status
      (largeFileCase false chunk fuel e sys c fds).events ∧
    (largeFileCase false chunk fuel e sys c fds).status ≠ Status.exited EXIT_SUCCESS := by
  obtain ⟨hloop, hne⟩ := failStop_truncLoop chunk e sys fuel 0 e.fts_statp.st_size c
  unfold largeFileCase unlink_entry
  cases hopen : sys.openOk
  · simp only [Bool.false_eq_true, if_false]
    exact ⟨Or.inl ⟨rfl, [], Event.openRW e false, by simp, by simp, rfl⟩,
      by simp [EXIT_FAILURE, EXIT_SUCCESS]⟩
  · cases hunlink : sys.unlinkOk
    · simp only [if_true, Bool.false_eq_true, if_false]
      refine ⟨Or.inl ⟨rfl, [Event.openRW e true], Event.unlink e false, by simp, ?_, rfl⟩,
        by simp [EXIT_FAILURE, EXIT_SUCCESS]⟩
      intro x hx
      simp at hx
      subst hx
      rfl
    · simp only [if_true]
      cases hst : (truncLoop false chunk e sys fuel 0 e.fts_statp.st_size c).status with
      | running =>
        rw [hst] at hloop
        have hclean := hloop.clean_of_running
        refine ⟨Or.inr ⟨Or.inl rfl, ?_⟩, by simp⟩
        intro x hx
        simp only [List.cons_append, List.nil_append, List.mem_cons, List.mem_append,
          List.mem_singleton, List.not_mem_nil, or_false] at hx
        rcases hx with rfl | rfl | hx | rfl
        · rfl
        · rfl
        · exact hclean x hx
        · rfl
      | exited code =>
        rw [hst] at hloop hne
        refine ⟨?_, hne⟩
        have := FailStop.prepend [Event.openRW e true, Event.unlink e true]
          (by intro x hx; simp at hx; rcases hx with rfl | rfl <;> rfl) hloop
        simpa using this
      | looping =>
        rw [hst] at hloop
        refine ⟨?_, by simp⟩
        have := FailStop.prepend [Event.openRW e true, Event.unlink e true]
          (by intro x hx; simp at hx; rcases hx with rfl | rfl <;> rfl) hloop
        simpa using this

theorem failStop_smallFileCase (e : FTSENT) (sys : Sys) (c : Int) (fds : Nat) :
    FailStop (smallFileCase false e sys c fds).status
      (smallFileCase false e sys c fds).events ∧
    (smallFileCase false e sys c fds).status ≠ Status.exited EXIT_SUCCESS := by
  unfold smallFileCase unlink_entry
  cases sys.unlinkOk
  · simp only [Bool.false_eq_true, if_false]
    exact ⟨Or.inl ⟨rfl, [], Event.unlink e false, by simp, by simp, rfl⟩,
      by simp [EXIT_FAILURE, EXIT_SUCCESS]⟩
  · simp only [if_true]
    refine ⟨Or.inr ⟨Or.inl rfl, ?_⟩, by simp⟩
    intro x hx
    simp at hx
    subst hx
    rfl

theorem maybeDream_clean (chunk : Nat) (c : Int) :
    ∀ x ∈ (maybeDream chunk c).2, x.isFailure = false := by
  unfold maybeDream
  split
  · intro x hx
    simp at hx
    subst hx
    rfl
  · simp

theorem failStop_caseF (chunk fuel : Nat) (e : FTSENT) (sys : Sys) (c : Int) (fds : Nat) :
    FailStop (caseF false chunk fuel e sys c fds).status
      (caseF false chunk fuel e sys c fds).events ∧
    (caseF false chunk fuel e sys c fds).status ≠ Status.exited EXIT_SUCCESS := by
  unfold caseF
  by_cases hel : e.fts_statp.st_size > chunk ∧ e.fts_statp.st_nlink ≤ 1
  · simp only [hel, and_self, if_true]
    obtain ⟨h1, h2⟩ := failStop_largeFileCase chunk fuel e sys (maybeDream chunk c).1 fds
    exact ⟨h1.prepend _ (maybeDream_clean chunk c), h2⟩
  · simp only [hel, if_false]
    obtain ⟨h1, h2⟩ := failStop_smallFileCase e sys (maybeDream chunk c).1 fds
    exact ⟨h1.prepend _ (maybeDream_clean chunk c), h2⟩

theorem failStop_switchBody (recursive : Bool) (chunk fuel : Nat) (e : FTSENT) (sys : Sys)
    (c : Int) (fds : Nat) :
    FailStop (switchBody recursive false chunk fuel e sys c fds).status
      (switchBody recursive false chunk fuel e sys c fds).events ∧
    (switchBody recursive false chunk fuel e sys c fds).status ≠
      Status.exited EXIT_SUCCESS := by
  have hdefault : FailStop (unlink_entry false e sys).2.1 (unlink_entry false e sys).2.2 ∧
      (unlink_entry false e sys).2.1 ≠ Status.exited EXIT_SUCCESS := by
    refine ⟨(failStop_unlink_entry e sys).1, ?_⟩
    unfold unlink_entry
    cases sys.unlinkOk <;> simp [EXIT_FAILURE, EXIT_SUCCESS]
  have hD : FailStop (if recursive = true then ⟨Status.running, c, fds, false, []⟩
        else (⟨Status.exited EXIT_FAILURE, c, fds, false, [Event.nonRecursiveDir e]⟩ : Out)).status
      (if recursive = true then ⟨Status.running, c, fds, false, []⟩
        else (⟨Status.exited EXIT_FAILURE, c, fds, false, [Event.nonRecursiveDir e]⟩ : Out)).events ∧
      (if recursive = true then ⟨Status.running, c, fds, false, []⟩
        else (⟨Status.exited EXIT_FAILURE, c, fds, false, [Event.nonRecursiveDir e]⟩ : Out)).status
        ≠ Status.exited EXIT_SUCCESS := by
    cases recursive
    · simp only [Bool.false_eq_true, if_false]
      exact ⟨Or.inl ⟨rfl, [], Event.nonRecursiveDir e, by simp, by simp, rfl⟩,
        by simp [EXIT_FAILURE, EXIT_SUCCESS]⟩
    · simp only [if_true]
      exact ⟨Or.inr ⟨Or.inl rfl, by simp⟩, by simp⟩
  have hDP : FailStop (if sys.rmdirOk = true then ⟨Status.running, c, fds, false, [Event.rmdir e true]⟩
        else (⟨Status.exited EXIT_FAILURE, c, fds, false, [Event.rmdir e false]⟩ : Out)).status
      (if sys.rmdirOk = true then ⟨Status.running, c, fds, false, [Event.rmdir e true]⟩
        else (⟨Status.exited EXIT_FAILURE, c, fds, false, [Event.rmdir e false]⟩ : Out)).events ∧
      (if sys.rmdirOk = true then ⟨Status.running, c, fds, false, [Event.rmdir e true]⟩
        else (⟨Status.exited EXIT_FAILURE, c, fds, false, [Event.rmdir e false]⟩ : Out)).status
        ≠ Status.exited EXIT_SUCCESS := by
    cases sys.rmdirOk
    · simp only [Bool.false_eq_true, if_false]
      exact ⟨Or.inl ⟨rfl, [], Event.rmdir e false, by simp, by simp, rfl⟩,
        by simp [EXIT_FAILURE, EXIT_SUCCESS]⟩
    · simp only [if_true]
      refine ⟨Or.inr ⟨Or.inl rfl, ?_⟩, by simp⟩
      intro x hx
      simp at hx
      subst hx
      rfl
  unfold switchBody
  cases hinfo : e.fts_info <;>
    simp only [Bool.false_eq_true, if_false] <;>
    first
      | exact hD
      | exact hDP
      | exact failStop_caseF chunk fuel e sys c fds
      | exact hdefault

theorem failStop_mainLoop (recursive : Bool) (chunk fuel : Nat) :
    ∀ (walk : List (FTSENT × Sys)) (skipBelow : Option Nat) (c : Int) (fds : Nat),
      FailStop (mainLoop recursive false chunk fuel walk skipBelow c fds).status
        (mainLoop recursive false chunk fuel walk skipBelow c fds).events := by
  intro walk
  induction walk with
  | nil =>
    intro skipBelow c fds
    exact Or.inr ⟨Or.inr (Or.inr rfl), by simp [mainLoop]⟩
  | cons x rest ih =>
    intro skipBelow c fds
    obtain ⟨e, sys⟩ := x
    unfold mainLoop
    by_cases hskip : skipBelow.any (fun l => decide (l < e.fts_level)) = true
    · simp only [hskip, if_true]
      exact ih skipBelow c fds
    · simp only [hskip, if_false]
      obtain ⟨hbody, _⟩ := failStop_switchBody recursive chunk fuel e sys c fds
      have hread : ∀ x ∈ [Event.fts_read e], x.isFailure = false := by
        intro x hx
        simp at hx
        subst hx
        rfl
      cases hst : (switchBody recursive false chunk fuel e sys c fds).status with
      | running =>
        rw [hst] at hbody
        have hclean := hbody.clean_of_running
        have h2 := ih (if (switchBody recursive false chunk fuel e sys c fds).skip = true
            then some e.fts_level else none)
          (switchBody recursive false chunk fuel e sys c fds).the_counter
          (switchBody recursive false chunk fuel e sys c fds).fds
        have := (h2.prepend _ hclean).prepend _ hread
        simpa using this
      | exited code =>
        have := hbody.prepend _ hread
        rw [hst] at this
        simpa using this
      | looping =>
        have := hbody.prepend _ hread
        rw [hst] at this
        simpa using this

theorem append_singleton_split {α : Type} (pre pre2 post : List α) (ev ev2 : α)
    (h : pre ++ ev :: post = pre2 ++ [ev2]) : post = [] ∨ ev ∈ pre2 := by
  induction pre generalizing pre2 with
  | nil =>
    cases pre2 with
    | nil =>
      simp at h
      exact Or.inl h.2
    | cons y ys =>
      simp at h
      exact Or.inr (by rw [h.1]; simp)
  | cons y ys ih =>
    cases pre2 with
    | nil =>
      simp at h
    | cons z zs =>
      simp at h
      rcases ih zs h.2 with h1 | h1
      · exact Or.inl h1
      · exact Or.inr (List.mem_cons_of_mem _ h1)

/-- While the threshold is at least 1 and the fuel covers `boundary / chunk`
iterations, the truncation loop is left, whatever the outcomes of the
truncations. -/
theorem truncLoop_not_looping (force : Bool) (chunk : Nat) (e : FTSENT) (sys : Sys)
    (hT : 1 ≤ chunk) :
    ∀ (fuel k boundary : Nat) (c : Int), boundary / chunk ≤ fuel →
      (truncLoop force chunk e sys fuel k boundary c).status ≠ Status.looping := by
  intro fuel
  induction fuel with
  | zero =>
    intro k boundary c h
    have hlt : boundary < chunk :=
      (Nat.div_eq_zero_iff (by omega : 0 < chunk)).1 (Nat.le_zero.1 h)
    simp [truncLoop, Nat.not_le.2 hlt]
  | succ fuel ih =>
    intro k boundary c h
    unfold truncLoop
    by_cases hb : boundary ≥ chunk
    · have hd : boundary / chunk = (boundary - chunk) / chunk + 1 :=
        Nat.div_eq_sub_div (by omega) hb
      have hrec := ih (k + 1) (boundary - chunk) 0 (by omega)
      cases sys.ftruncateOk k <;> cases force <;> simp [hb, hrec]
    · simp [hb]

theorem switchBody_not_looping (recursive force : Bool) (chunk fuel : Nat) (e : FTSENT)
    (sys : Sys) (c : Int) (fds : Nat) (hT : 1 ≤ chunk)
    (hfuel : e.fts_statp.st_size / chunk ≤ fuel) :
    (switchBody recursive force chunk fuel e sys c fds).status ≠ Status.looping := by
  have hloop := truncLoop_not_looping force chunk e sys hT fuel 0 e.fts_statp.st_size
    (maybeDream chunk c).1 hfuel
  have hF : (caseF force chunk fuel e sys c fds).status ≠ Status.looping := by
    unfold caseF
    by_cases hel : e.fts_statp.st_size > chunk ∧ e.fts_statp.st_nlink ≤ 1
    · simp only [hel, and_self, if_true, largeFileCase, unlink_entry]
      cases sys.openOk <;> cases sys.unlinkOk <;> cases force <;> simp
      all_goals
        cases hst : (truncLoop _ chunk e sys fuel 0 e.fts_statp.st_size
          (maybeDream chunk c).1).status <;> simp
        exact hloop hst
    · simp only [hel, if_false, smallFileCase, unlink_entry]
      cases sys.unlinkOk <;> cases force <;> simp
  unfold switchBody
  cases hinfo : e.fts_info <;> simp only <;>
    first
      | exact hF
      | (simp only [unlink_entry]
         cases recursive <;> cases force <;> cases sys.rmdirOk <;> cases sys.unlinkOk <;> simp)
      | (cases recursive <;> cases force <;> cases sys.rmdirOk <;> simp)

/-- With a threshold of at least 1 and fuel covering every file, the loop over
the entries ends in an exit. -/
theorem mainLoop_exits (recursive force : Bool) (chunk fuel : Nat) (hT : 1 ≤ chunk) :
    ∀ (walk : List (FTSENT × Sys)), (∀ x ∈ walk, x.1.fts_statp.st_size / chunk ≤ fuel) →
      ∀ (skipBelow : Option Nat) (c : Int) (fds : Nat),
        ∃ code, (mainLoop recursive force chunk fuel walk skipBelow c fds).status =
          Status.exited code := by
  intro walk
  induction walk with
  | nil => intro _ skipBelow c fds; exact ⟨EXIT_SUCCESS, rfl⟩
  | cons x rest ih =>
    intro hfuel skipBelow c fds
    obtain ⟨e, sys⟩ := x
    have hrest : ∀ x ∈ rest, x.1.fts_statp.st_size / chunk ≤ fuel :=
      fun x hx => hfuel x (List.mem_cons_of_mem _ hx)
    have he : e.fts_statp.st_size / chunk ≤ fuel := hfuel (e, sys) (List.mem_cons_self _ _)
    unfold mainLoop
    by_cases hskip : skipBelow.any (fun l => decide (l < e.fts_level)) = true
    · simp only [hskip, if_true]
      exact ih hrest skipBelow c fds
    · simp only [hskip, if_false]
      have hnl := switchBody_not_looping recursive force chunk fuel e sys c fds hT he
      cases hst : (switchBody recursive force chunk fuel e sys c fds).status with
      | running => simpa using ih hrest _ _ _
      | exited code => exact ⟨code, by simp [hst]⟩
      | looping => exact absurd hst hnl

/-- C5: without `--force`, whatever the entries and the outcomes of the system
calls, the traversal loop of `main` exits with a nonzero status exactly when a
failure occurs (a directory met in non-recursive mode, or a failed `open`,
`unlink`, `rmdir` or `ftruncate`); a failure is always the last event of the
run, so nothing is attempted after it, and the status is then `EXIT_FAILURE`.
With a threshold of at least 1 and enough fuel for every file the loop always
ends, with `EXIT_SUCCESS` or `EXIT_FAILURE`. -/
theorem nonforce_halts_at_first_failure (recursive : Bool) (chunk fuel : Nat)
    (walk : List (FTSENT × Sys)) :
    ((∃ code, code ≠ 0 ∧
        (mainLoop recursive false chunk fuel walk none 0 0).status = Status.exited code) ↔
      ∃ ev ∈ (mainLoop recursive false chunk fuel walk none 0 0).events,
        ev.isFailure = true) ∧
    (∀ pre ev post,
      (mainLoop recursive false chunk fuel walk none 0 0).events = pre ++ ev :: post →
      ev.isFailure = true →
      post = [] ∧
      (mainLoop recursive false chunk fuel walk none 0 0).status =
        Status.exited EXIT_FAILURE) ∧
    (1 ≤ chunk → (∀ x ∈ walk, x.1.fts_statp.st_size / chunk ≤ fuel) →
      (mainLoop recursive false chunk fuel walk none 0 0).status = Status.exited EXIT_SUCCESS ∨
      (mainLoop recursive false chunk fuel walk none 0 0).status =
        Status.exited EXIT_FAILURE) := by
  have hfs := failStop_mainLoop recursive chunk fuel walk none 0 0
  refine ⟨⟨?_, ?_⟩, ?_, ?_⟩
  · rintro ⟨code, hcode, hst⟩
    rcases hfs with ⟨_, pre, ev, hevs, _, hev⟩ | ⟨hs, _⟩
    · exact ⟨ev, by rw [hevs]; simp, hev⟩
    · rw [hst] at hs
      rcases hs with hs | hs | hs
      · cases hs
      · cases hs
      · injection hs with hs
        exact absurd hs hcode
  · rintro ⟨ev, hmem, hev⟩
    rcases hfs with ⟨hs, _⟩ | ⟨_, hall⟩
    · exact ⟨EXIT_FAILURE, by decide, hs⟩
    · rw [hall ev hmem] at hev
      cases hev
  · intro pre ev post hevs hev
    rcases hfs with ⟨hs, pre2, ev2, hevs2, hpre2, _⟩ | ⟨_, hall⟩
    · refine ⟨?_, hs⟩
      rw [hevs] at hevs2
      rcases append_singleton_split pre pre2 post ev ev2 hevs2 with h | h
      · exact h
      · rw [hpre2 ev h] at hev
        cases hev
    · have : ev ∈ (mainLoop recursive false chunk fuel walk none 0 0).events := by
        rw [hevs]; simp
      rw [hall ev this] at hev
      cases hev
  · intro hT hfuel
    obtain ⟨code, hcode⟩ := mainLoop_exits recursive false chunk fuel hT walk hfuel none 0 0
    rcases hfs with ⟨hs, _⟩ | ⟨hs, _⟩
    · exact Or.inr hs
    · rcases hs with hs | hs | hs
      · rw [hcode] at hs; cases hs
      · rw [hcode] at hs; cases hs
      · exact Or.inl hs

/-- Witness of `nonforce_halts_at_first_failure`: a directory holding two
files, the `unlink` of the first failing; the failed `unlink` is the last
event and the run exits with `EXIT_FAILURE`. -/
theorem nonforce_halts_at_first_failure_witness :
    (mainLoop true false 5 2
      [(dir FtsInfo.FTS_D "d" 0 1, allOk),
       (file "d/a" 1 3 1, ⟨true, false, true, fun _ => true⟩),
       (file "d/b" 1 3 1, allOk),
       (dir FtsInfo.FTS_DP "d" 0 1, allOk)] none 0 0).events =
      [Event.fts_read (dir FtsInfo.FTS_D "d" 0 1)] ++
        Event.fts_read (file "d/a" 1 3 1) :: [Event.unlink (file "d/a" 1 3 1) false] ∧
    (mainLoop true false 5 2
      [(dir FtsInfo.FTS_D "d" 0 1, allOk),
       (file "d/a" 1 3 1, ⟨true, false, true, fun _ => true⟩),
       (file "d/b" 1 3 1, allOk),
       (dir FtsInfo.FTS_DP "d" 0 1, allOk)] none 0 0).status = Status.exited EXIT_FAILURE :=
  have hev : (mainLoop true false 5 2
      [(dir FtsInfo.FTS_D "d" 0 1, allOk),
       (file "d/a" 1 3 1, ⟨true, false, true, fun _ => true⟩),
       (file "d/b" 1 3 1, allOk),
       (dir FtsInfo.FTS_DP "d" 0 1, allOk)] none 0 0).events =
      [Event.fts_read (dir FtsInfo.FTS_D "d" 0 1), Event.fts_read (file "d/a" 1 3 1)] ++
        Event.unlink (file "d/a" 1 3 1) false :: [] := by decide
  ⟨by decide, ((nonforce_halts_at_first_failure true 5 2 _).2.1 _ _ _ hev rfl).2⟩

/-! ## What `case FTS_F` can issue -/

theorem truncLoop_fileOps (force : Bool) (chunk : Nat) (e : FTSENT) (sys : Sys) :
    ∀ (fuel k boundary : Nat) (c : Int),
      ∀ x ∈ (truncLoop force chunk e sys fuel k boundary c).events, x.isFileOp = true := by
  intro fuel
  induction fuel with
  | zero => intro k boundary c; unfold truncLoop; split <;> simp
  | succ fuel ih =>
    intro k boundary c
    have hrec := ih (k + 1) (boundary - chunk) 0
    unfold truncLoop
    by_cases hb : boundary ≥ chunk
    · cases sys.ftruncateOk k
      · cases force <;> simp [hb, Event.isFileOp]
      · simp only [hb, if_true, List.mem_cons]
        rintro x (rfl | rfl | hx)
        · rfl
        · rfl
        · exact hrec x hx
    · simp [hb]

theorem caseF_fileOps (force : Bool) (chunk fuel : Nat) (e : FTSENT) (sys : Sys) (c : Int)
    (fds : Nat) : ∀ x ∈ (caseF force chunk fuel e sys c fds).events, x.isFileOp = true := by
  have hd : ∀ x ∈ (maybeDream chunk c).2, x.isFileOp = true := by
    unfold maybeDream
    split <;> simp [Event.isFileOp]
  have hloop := truncLoop_fileOps force chunk e sys fuel 0 e.fts_statp.st_size
    (maybeDream chunk c).1
  have hlarge : ∀ x ∈ (largeFileCase force chunk fuel e sys (maybeDream chunk c).1 fds).events,
      x.isFileOp = true := by
    unfold largeFileCase unlink_entry
    cases sys.openOk <;> cases sys.unlinkOk <;> cases force <;> simp [Event.isFileOp]
    all_goals
      split <;> simp only [List.mem_append, List.mem_cons, List.mem_singleton,
        List.not_mem_nil, or_false, List.cons_append, List.nil_append]
      all_goals
        intro x hx
        first
          | (rcases hx with rfl | rfl | hx | rfl
             · rfl
             · rfl
             · exact hloop x hx
             · rfl)
          | (rcases hx with rfl | rfl | hx
             · rfl
             · rfl
             · exact hloop x hx)
  have hsmall : ∀ x ∈ (smallFileCase force e sys (maybeDream chunk c).1 fds).events,
      x.isFileOp = true := by
    unfold smallFileCase unlink_entry
    cases sys.unlinkOk <;> cases force <;> simp [Event.isFileOp]
  intro x hx
  unfold caseF at hx
  by_cases hel : e.fts_statp.st_size > chunk ∧ e.fts_statp.st_nlink ≤ 1
  · simp only [hel, and_self, if_true, List.mem_append] at hx
    rcases hx with hx | hx
    · exact hd x hx
    · exact hlarge x hx
  · simp only [hel, if_false, List.mem_append] at hx
    rcases hx with hx | hx
    · exact hd x hx
    · exact hsmall x hx

theorem readEntries_append (a b : List Event) :
    readEntries (a ++ b) = readEntries a ++ readEntries b := by
  induction a with
  | nil => rfl
  | cons x xs ih => cases x <;> simp [readEntries, ih]

theorem readEntries_switchBody (recursive force : Bool) (chunk fuel : Nat) (e : FTSENT)
    (sys : Sys) (c : Int) (fds : Nat) :
    readEntries (switchBody recursive force chunk fuel e sys c fds).events = [] := by
  have hnil : ∀ l : List Event, (∀ x ∈ l, x.isFileOp = true) → readEntries l = [] := by
    intro l
    induction l with
    | nil => intro _; rfl
    | cons x xs ih =>
      intro h
      have hx := h x (List.mem_cons_self _ _)
      have hxs := ih (fun y hy => h y (List.mem_cons_of_mem _ hy))
      cases x <;> simp [Event.isFileOp] at hx <;> simp [readEntries, hxs]
  have hF := hnil _ (caseF_fileOps force chunk fuel e sys c fds)
  unfold switchBody
  cases hinfo : e.fts_info <;> simp only <;>
    first
      | exact hF
      | (simp only [unlink_entry]
         cases recursive <;> cases force <;> cases sys.rmdirOk <;> cases sys.unlinkOk <;>
           simp [readEntries])
      | (cases recursive <;> cases force <;> cases sys.rmdirOk <;> simp [readEntries])

/-! ## Force mode -/

theorem truncLoop_force_no_exit (chunk : Nat) (e : FTSENT) (sys : Sys) :
    ∀ (fuel k boundary : Nat) (c : Int) (code : Nat),
      (truncLoop true chunk e sys fuel k boundary c).status ≠ Status.exited code := by
  intro fuel
  induction fuel with
  | zero => intro k boundary c code; unfold truncLoop; split <;> simp
  | succ fuel ih =>
    intro k boundary c code
    have hrec := ih (k + 1) (boundary - chunk) 0 code
    unfold truncLoop
    by_cases hb : boundary ≥ chunk
    · cases sys.ftruncateOk k <;> simp [hb, hrec]
    · simp [hb]

theorem switchBody_force (recursive : Bool) (chunk fuel : Nat) (e : FTSENT) (sys : Sys)
    (c : Int) (fds : Nat) :
    (∀ code, (switchBody recursive true chunk fuel e sys c fds).status ≠ Status.exited code) ∧
    (switchBody recursive true chunk fuel e sys c fds).skip =
      (!recursive && decide (e.fts_info = FtsInfo.FTS_D)) := by
  have hloop := truncLoop_force_no_exit chunk e sys fuel 0 e.fts_statp.st_size
    (maybeDream chunk c).1
  have hF : (∀ code, (caseF true chunk fuel e sys c fds).status ≠ Status.exited code) ∧
      (caseF true chunk fuel e sys c fds).skip = false := by
    unfold caseF
    by_cases hel : e.fts_statp.st_size > chunk ∧ e.fts_statp.st_nlink ≤ 1
    · simp only [hel, and_self, if_true, largeFileCase, unlink_entry]
      cases sys.openOk <;> cases sys.unlinkOk <;> simp
      cases hst : (truncLoop true chunk e sys fuel 0 e.fts_statp.st_size
        (maybeDream chunk c).1).status <;> simp
      exact absurd hst (hloop _)
    · simp only [hel, if_false, smallFileCase, unlink_entry]
      cases sys.unlinkOk <;> simp
  unfold switchBody
  cases hinfo : e.fts_info <;> simp only <;>
    first
      | simpa using hF
      | (simp only [unlink_entry]
         cases recursive <;> cases sys.rmdirOk <;> cases sys.unlinkOk <;> simp)
      | (cases recursive <;> cases sys.rmdirOk <;> simp)

/-- In force mode, with a threshold of at least 1 and fuel covering every
file, the loop runs on every delivered entry and returns `EXIT_SUCCESS`. -/
theorem mainLoop_force (recursive : Bool) (chunk fuel : Nat) (hT : 1 ≤ chunk) :
    ∀ (walk : List (FTSENT × Sys)), (∀ x ∈ walk, x.1.fts_statp.st_size / chunk ≤ fuel) →
      ∀ (skipBelow : Option Nat) (c : Int) (fds : Nat),
        (mainLoop recursive true chunk fuel walk skipBelow c fds).status =
          Status.exited EXIT_SUCCESS ∧
        readEntries (mainLoop recursive true chunk fuel walk skipBelow c fds).events =
          delivered (!recursive) walk skipBelow := by
  intro walk
  induction walk with
  | nil => intro _ skipBelow c fds; exact ⟨rfl, rfl⟩
  | cons x rest ih =>
    intro hfuel skipBelow c fds
    obtain ⟨e, sys⟩ := x
    have hrest : ∀ x ∈ rest, x.1.fts_statp.st_size / chunk ≤ fuel :=
      fun x hx => hfuel x (List.mem_cons_of_mem _ hx)
    have he : e.fts_statp.st_size / chunk ≤ fuel := hfuel (e, sys) (List.mem_cons_self _ _)
    unfold mainLoop delivered
    by_cases hskip : skipBelow.any (fun l => decide (l < e.fts_level)) = true
    · simp only [hskip, if_true]
      exact ih hrest skipBelow c fds
    · simp only [hskip, if_false]
      have hnl := switchBody_not_looping recursive true chunk fuel e sys c fds hT he
      obtain ⟨hne, hsk⟩ := switchBody_force recursive chunk fuel e sys c fds
      have hre := readEntries_switchBody recursive true chunk fuel e sys c fds
      cases hst : (switchBody recursive true chunk fuel e sys c fds).status with
      | running =>
        obtain ⟨h1, h2⟩ := ih hrest
          (if (switchBody recursive true chunk fuel e sys c fds).skip = true
            then some e.fts_level else none)
          (switchBody recursive true chunk fuel e sys c fds).the_counter
          (switchBody recursive true chunk fuel e sys c fds).fds
        refine ⟨by simpa using h1, ?_⟩
        rw [hsk] at h2
        simpa [readEntries, readEntries_append, hre, hsk] using h2
      | exited code => exact absurd hst (hne code)
      | looping => exact absurd hst hnl

theorem sizes_bounded (walk : List (FTSENT × Sys)) :
    ∃ N, ∀ x ∈ walk, x.1.fts_statp.st_size ≤ N := by
  induction walk with
  | nil => exact ⟨0, by simp⟩
  | cons x rest ih =>
    obtain ⟨N, hN⟩ := ih
    refine ⟨max N x.1.fts_statp.st_size, ?_⟩
    intro y hy
    rcases List.mem_cons.1 hy with rfl | hy
    · exact Nat.le_max_right _ _
    · exact (hN y hy).trans (Nat.le_max_left _ _)

/-- C6 (amended): with `--force`, at least one path and a threshold of at
least one byte, for every sequence of entries and every pattern of failures
the run (given enough fuel) ends with `EXIT_SUCCESS`, having run the loop body
on every entry the walker delivers (all entries, except the descendants of
directories skipped in non-recursive mode). -/
theorem force_run_exits_zero (cfg : Config) (walk : List (FTSENT × Sys))
    (hforce : cfg.force = true) (hpaths : cfg.paths ≠ [])
    (hT : 1 ≤ megabytize cfg.chunk) :
    ∃ N, ∀ fuel, N ≤ fuel →
      (main cfg walk fuel).status = Status.exited EXIT_SUCCESS ∧
      readEntries (main cfg walk fuel).events = delivered (!cfg.recursive) walk none := by
  obtain ⟨N, hN⟩ := sizes_bounded walk
  refine ⟨N, fun fuel hfuel => ?_⟩
  have hp : cfg.paths.isEmpty = false := by
    cases hc : cfg.paths with
    | nil => exact absurd hc hpaths
    | cons a l => rfl
  have hsz : ∀ x ∈ walk, x.1.fts_statp.st_size / megabytize cfg.chunk ≤ fuel :=
    fun x hx => (Nat.div_le_self _ _).trans ((hN x hx).trans hfuel)
  have h := mainLoop_force cfg.recursive (megabytize cfg.chunk) fuel hT walk hsz none 0 0
  unfold main
  simp only [hp, Bool.false_eq_true, if_false, hforce]
  exact h

/-- Witness of `force_run_exits_zero`: `--force` with the default 128
megabytes on a directory whose `rmdir` fails. -/
theorem force_run_exits_zero_witness :
    ∃ N, ∀ fuel, N ≤ fuel →
      (main ⟨true, 128, true, false, ["d"]⟩
        [(dir FtsInfo.FTS_D "d" 0 1, allOk),
         (dir FtsInfo.FTS_DP "d" 0 1, ⟨true, true, false, fun _ => true⟩)] fuel).status =
        Status.exited EXIT_SUCCESS ∧
      readEntries (main ⟨true, 128, true, false, ["d"]⟩
        [(dir FtsInfo.FTS_D "d" 0 1, allOk),
         (dir FtsInfo.FTS_DP "d" 0 1, ⟨true, true, false, fun _ => true⟩)] fuel).events =
        delivered (!true)
          [(dir FtsInfo.FTS_D "d" 0 1, allOk),
           (dir FtsInfo.FTS_DP "d" 0 1, ⟨true, true, false, fun _ => true⟩)] none :=
  force_run_exits_zero ⟨true, 128, true, false, ["d"]⟩ _ rfl (by decide) (by decide)

/-- With a threshold of 0 and every call succeeding, `case FTS_F` on a
non-empty file with at most one link never gets out of the truncation loop. -/
theorem caseF_chunk_zero (force : Bool) (fuel : Nat) (e : FTSENT) (sys : Sys) (c : Int)
    (fds : Nat) (hsz : 0 < e.fts_statp.st_size) (hnl : e.fts_statp.st_nlink ≤ 1)
    (hopen : sys.openOk = true) (hunlink : sys.unlinkOk = true)
    (hok : ∀ k, sys.ftruncateOk k = true) :
    (caseF force 0 fuel e sys c fds).status = Status.looping := by
  have h := (truncLoop_chunk_zero force e sys hok fuel 0 e.fts_statp.st_size
    (maybeDream 0 c).1).1
  have hcond : e.fts_statp.st_size > 0 ∧ e.fts_statp.st_nlink ≤ 1 := ⟨hsz, hnl⟩
  simp only [caseF, hcond, and_self, if_true, largeFileCase, unlink_entry, hopen, hunlink, h]

/-- C6 (counterexample): `--force` with `--chunk 0` on a single one-byte file
with one link, every call succeeding: whatever the fuel, the run is still in
the truncation loop, so it never ends with exit status 0. -/
theorem force_run_never_ends_at_zero :
    (⟨true, 0, true, false, ["f"]⟩ : Config).force = true ∧
    (⟨true, 0, true, false, ["f"]⟩ : Config).paths ≠ [] ∧
    ∀ fuel, (main ⟨true, 0, true, false, ["f"]⟩ [(file "f" 0 1 1, allOk)] fuel).status =
      Status.looping := by
  refine ⟨rfl, by decide, fun fuel => ?_⟩
  have h := caseF_chunk_zero true fuel (file "f" 0 1 1) allOk 0 0 (by decide) (by decide)
    rfl rfl (fun _ => rfl)
  have hm : megabytize 0 = 0 := rfl
  have hi : (file "f" 0 1 1).fts_info = FtsInfo.FTS_F := rfl
  simp [main, hm, mainLoop, switchBody, hi, h]

/-! ## The non-recursive guard -/

theorem mainLoop_skip_inner (recursive force : Bool) (chunk fuel l : Nat)
    (rest : List (FTSENT × Sys)) (c : Int) (fds : Nat) :
    ∀ inner : List (FTSENT × Sys), (∀ x ∈ inner, l < x.1.fts_level) →
      mainLoop recursive force chunk fuel (inner ++ rest) (some l) c fds =
        mainLoop recursive force chunk fuel rest (some l) c fds := by
  intro inner
  induction inner with
  | nil => intro _; rfl
  | cons x xs ih =>
    intro h
    obtain ⟨e, sys⟩ := x
    have hx : l < e.fts_level := h (e, sys) (List.mem_cons_self _ _)
    have hxs := ih (fun y hy => h y (List.mem_cons_of_mem _ hy))
    rw [List.cons_append, mainLoop]
    simp only [Option.any_some, hx, decide_True, if_true]
    exact hxs

/-- C7 (amended): with `recursive = false` the guard looks at `fts_info` only,
never at the level of the entry: every pre-order directory event, root
argument or not, is reported as a violation (and no other entry is). Without
`--force` the process then exits with `EXIT_FAILURE` having done nothing else;
with `--force` it sets `FTS_SKIP`, and the loop goes on after the directory's
descendants without running on any of them. A root argument that is a regular
file takes `case FTS_F` and is not reported. -/
theorem nonRecursive_guard (force : Bool) (chunk fuel : Nat) (e : FTSENT) (sys : Sys)
    (c : Int) (fds : Nat) :
    (Event.nonRecursiveDir e ∈ (switchBody false force chunk fuel e sys c fds).events ↔
      e.fts_info = FtsInfo.FTS_D) ∧
    (e.fts_info = FtsInfo.FTS_D →
      switchBody false false chunk fuel e sys c fds =
        ⟨Status.exited EXIT_FAILURE, c, fds, false, [Event.nonRecursiveDir e]⟩ ∧
      switchBody false true chunk fuel e sys c fds =
        ⟨Status.running, c, fds, true, [Event.nonRecursiveDir e, Event.fts_skip e]⟩ ∧
      ∀ inner rest : List (FTSENT × Sys), (∀ x ∈ inner, e.fts_level < x.1.fts_level) →
        (mainLoop false true chunk fuel ((e, sys) :: (inner ++ rest)) none c fds).events =
          Event.fts_read e :: Event.nonRecursiveDir e :: Event.fts_skip e ::
            (mainLoop false true chunk fuel rest (some e.fts_level) c fds).events) ∧
    (e.fts_info = FtsInfo.FTS_F →
      switchBody false force chunk fuel e sys c fds = caseF force chunk fuel e sys c fds) := by
  refine ⟨⟨?_, ?_⟩, ?_, ?_⟩
  · intro hmem
    by_contra hne
    have hF := caseF_fileOps force chunk fuel e sys c fds
    unfold switchBody at hmem
    cases hinfo : e.fts_info <;> rw [hinfo] at hmem hne <;> simp only at hmem
    · exact hne rfl
    all_goals
      first
        | (have hop := hF _ hmem
           simp [Event.isFileOp] at hop)
        | (simp only [unlink_entry] at hmem
           revert hmem
           cases force <;> cases sys.rmdirOk <;> cases sys.unlinkOk <;> simp)
        | (revert hmem
           cases force <;> cases sys.rmdirOk <;> simp)
  · intro hinfo
    unfold switchBody
    rw [hinfo]
    cases force <;> simp
  · intro hinfo
    have hf : switchBody false false chunk fuel e sys c fds =
        ⟨Status.exited EXIT_FAILURE, c, fds, false, [Event.nonRecursiveDir e]⟩ := by
      unfold switchBody; rw [hinfo]; simp
    have ht : switchBody false true chunk fuel e sys c fds =
        ⟨Status.running, c, fds, true, [Event.nonRecursiveDir e, Event.fts_skip e]⟩ := by
      unfold switchBody; rw [hinfo]; simp
    refine ⟨hf, ht, ?_⟩
    intro inner rest hinner
    have hskip := mainLoop_skip_inner false true chunk fuel e.fts_level rest c fds inner hinner
    simp only [mainLoop, Option.any_none, Bool.false_eq_true, if_false, ht, if_true, hskip,
      List.cons_append, List.nil_append]
  · intro hinfo
    unfold switchBody
    rw [hinfo]

/-- Witness of `nonRecursive_guard`: a root directory holding one file, in
force mode: the file is never read. -/
theorem nonRecursive_guard_witness :
    (mainLoop false true 5 0
      ((dir FtsInfo.FTS_D "d" 0 1, allOk) ::
        ([(file "d/a" 1 3 1, allOk)] ++ [(dir FtsInfo.FTS_DP "d" 0 1, allOk)])) none 0 0).events =
      Event.fts_read (dir FtsInfo.FTS_D "d" 0 1) ::
        Event.nonRecursiveDir (dir FtsInfo.FTS_D "d" 0 1) ::
        Event.fts_skip (dir FtsInfo.FTS_D "d" 0 1) ::
        (mainLoop false true 5 0 [(dir FtsInfo.FTS_DP "d" 0 1, allOk)] (some 0) 0 0).events :=
  ((nonRecursive_guard true 5 0 (dir FtsInfo.FTS_D "d" 0 1) allOk 0 0).2.1 rfl).2.2
    [(file "d/a" 1 3 1, allOk)] [(dir FtsInfo.FTS_DP "d" 0 1, allOk)] (by decide)

/-- C7 (counterexample): `recursive = false`, no `--force`, and the single
configured root `d` is a directory: its pre-order event (level 0) is reported
as a violation and the process exits with `EXIT_FAILURE`. -/
theorem root_directory_is_a_violation :
    (dir FtsInfo.FTS_D "d" 0 1).fts_level = 0 ∧
    (dir FtsInfo.FTS_D "d" 0 1).fts_path ∈ (⟨false, 128, false, false, ["d"]⟩ : Config).paths ∧
    (main ⟨false, 128, false, false, ["d"]⟩
      [(dir FtsInfo.FTS_D "d" 0 1, allOk), (dir FtsInfo.FTS_DP "d" 0 1, allOk)] 0).status =
      Status.exited EXIT_FAILURE ∧
    (main ⟨false, 128, false, false, ["d"]⟩
      [(dir FtsInfo.FTS_D "d" 0 1, allOk), (dir FtsInfo.FTS_DP "d" 0 1, allOk)] 0).events =
      [Event.fts_read (dir FtsInfo.FTS_D "d" 0 1),
       Event.nonRecursiveDir (dir FtsInfo.FTS_D "d" 0 1)] := by
  decide

/-! ## The rate counter -/

/-- As long as the sum stays below `2 ^ 31` the counter holds it exactly. -/
theorem smallFileCase_counter_exact (force : Bool) (e : FTSENT) (sys : Sys) (c : Int)
    (fds : Nat) (hc : 0 ≤ c) (hsum : c + e.fts_statp.st_size < 2 ^ 31)
    (hunlink : sys.unlinkOk = true) :
    (smallFileCase force e sys c fds).the_counter = c + e.fts_statp.st_size := by
  have h0 : 0 ≤ c + (e.fts_statp.st_size : Int) := by omega
  simp only [smallFileCase, unlink_entry, hunlink, if_true, toInt32]
  norm_num at hsum ⊢
  omega

/-- For a counter in `[0, 2 ^ 31)` the rate check is the plain comparison. -/
theorem maybeDream_exact (chunk : Nat) (c : Int) (hc : 0 ≤ c) (hlt : c < 2 ^ 31) :
    maybeDream chunk c = if c > chunk then (0, [Event.usleep]) else (c, []) := by
  have h : toUInt64 c = c.toNat := by
    unfold toUInt64
    congr 1
    apply Int.emod_eq_of_lt hc
    norm_num at hlt ⊢
    omega
  unfold maybeDream
  rw [h]
  by_cases hgt : c > chunk
  · have : c.toNat > chunk := by omega
    simp [hgt, this]
  · have : ¬ c.toNat > chunk := by omega
    simp [hgt, this]

/-- C2 (the code at the failing inputs): the counter is a 32-bit `int`.
With the default 128 megabytes, after the direct unlink of a hard-linked file
of `2 ^ 32` bytes the counter is 0 again, so the next file is not preceded by
a pause although the sizes credited since the last pause exceed the
threshold. With `--chunk 4096`, after the unlink of a file of `2 ^ 31` bytes
the counter is `- 2 ^ 31`, which as a 64-bit unsigned value exceeds the
threshold, so the next file is preceded by a pause although the sum of the
sizes is below the threshold. -/
theorem counter_wraps :
    megabytize 128 < 4294967296 ∧
    (main ⟨true, 128, false, false, ["a", "b"]⟩
      [(file "a" 0 4294967296 2, allOk), (file "b" 0 1 1, allOk)] 0).events =
      [Event.fts_read (file "a" 0 4294967296 2), Event.unlink (file "a" 0 4294967296 2) true,
       Event.fts_read (file "b" 0 1 1), Event.unlink (file "b" 0 1 1) true] ∧
    (smallFileCase false (file "a" 0 4294967296 2) allOk 0 0).the_counter = 0 ∧
    2147483648 ≤ megabytize 4096 ∧
    (main ⟨true, 4096, false, false, ["a", "b"]⟩
      [(file "a" 0 2147483648 1, allOk), (file "b" 0 1 1, allOk)] 0).events =
      [Event.fts_read (file "a" 0 2147483648 1), Event.unlink (file "a" 0 2147483648 1) true,
       Event.fts_read (file "b" 0 1 1), Event.usleep, Event.unlink (file "b" 0 1 1) true] ∧
    (smallFileCase false (file "a" 0 2147483648 1) allOk 0 0).the_counter = -2147483648 := by
  decide

/-! ## The descriptor of the large file case -/

/-- C3 (the code at the failing input): in force mode, when the `open` of a
large file succeeds and the `unlink` fails, the large file case leaves through
the `break` after `unlink_entry` without a `close`: the loop reads the next
entry and finishes the run with one descriptor still open. -/
theorem descriptor_leaks_on_unlink_failure :
    (main ⟨true, 128, true, false, ["d"]⟩
      [(dir FtsInfo.FTS_D "d" 0 1, allOk),
       (file "d/big" 1 268435456 1, ⟨true, false, true, fun _ => true⟩),
       (file "d/small" 1 1 1, allOk),
       (dir FtsInfo.FTS_DP "d" 0 1, allOk)] 2).events =
      [Event.fts_read (dir FtsInfo.FTS_D "d" 0 1),
       Event.fts_read (file "d/big" 1 268435456 1),
       Event.openRW (file "d/big" 1 268435456 1) true,
       Event.unlink (file "d/big" 1 268435456 1) false,
       Event.fts_read (file "d/small" 1 1 1),
       Event.unlink (file "d/small" 1 1 1) true,
       Event.fts_read (dir FtsInfo.FTS_DP "d" 0 1),
       Event.rmdir (dir FtsInfo.FTS_DP "d" 0 1) true] ∧
    (largeFileCase true (megabytize 128) 2 (file "d/big" 1 268435456 1)
      ⟨true, false, true, fun _ => true⟩ 0 0).fds = 1 ∧
    (main ⟨true, 128, true, false, ["d"]⟩
      [(dir FtsInfo.FTS_D "d" 0 1, allOk),
       (file "d/big" 1 268435456 1, ⟨true, false, true, fun _ => true⟩),
       (file "d/small" 1 1 1, allOk),
       (dir FtsInfo.FTS_DP "d" 0 1, allOk)] 2).fds = 1 := by
  decide

/-! ## `--one-file-system` -/

/-- C8 (the code at the failing input): with `--one-file-system` the walker
does not descend into a directory on another device but still delivers its
pre-order and post-order events. On the post-order event the program calls
`rmdir` on that directory (device 2, the root being on device 1); the call
failing, without `--force` the process exits with `EXIT_FAILURE` and the root
is never removed. -/
theorem rmdir_across_devices :
    (dir FtsInfo.FTS_DP "/a/mnt" 1 2).fts_statp.st_dev ≠
      (dir FtsInfo.FTS_D "/a" 0 1).fts_statp.st_dev ∧
    (main ⟨true, 128, false, true, ["/a"]⟩
      [(dir FtsInfo.FTS_D "/a" 0 1, allOk),
       (dir FtsInfo.FTS_D "/a/mnt" 1 2, allOk),
       (dir FtsInfo.FTS_DP "/a/mnt" 1 2, ⟨true, true, false, fun _ => true⟩),
       (dir FtsInfo.FTS_DP "/a" 0 1, allOk)] 0).events =
      [Event.fts_read (dir FtsInfo.FTS_D "/a" 0 1),
       Event.fts_read (dir FtsInfo.FTS_D "/a/mnt" 1 2),
       Event.fts_read (dir FtsInfo.FTS_DP "/a/mnt" 1 2),
       Event.rmdir (dir FtsInfo.FTS_DP "/a/mnt" 1 2) false] ∧
    (main ⟨true, 128, false, true, ["/a"]⟩
      [(dir FtsInfo.FTS_D "/a" 0 1, allOk),
       (dir FtsInfo.FTS_D "/a/mnt" 1 2, allOk),
       (dir FtsInfo.FTS_DP "/a/mnt" 1 2, ⟨true, true, false, fun _ => true⟩),
       (dir FtsInfo.FTS_DP "/a" 0 1, allOk)] 0).status = Status.exited EXIT_FAILURE := by
  decide

end Slowrm
